import Mathlib

/-!
# Verification of the tennis-prediction league core (src/app.py)

Shallow embedding of the scoring, ranking, breakdown and store logic of
`src/app.py`.  SQL statements are modelled by pure functions over an explicit
database state; primary-key upserts become list updates; the transactional
request handlers become `Except`-valued functions (an `Except.error` result
models an aborted transaction: nothing is written).
-/

set_option maxRecDepth 4000

namespace TennisLeague

/-! ## Configuration constants (src/app.py lines 27-47) -/

/-- Model of `EVENTS_ORDERED`, src/app.py lines 27-41: `(short_id, name, level)`. -/
def EVENTS_ORDERED : List (String × String × String) :=
  [("AO", "Australian Open", "slam"),
   ("IW", "Indian Wells", "masters"),
   ("MIA", "Miami", "masters"),
   ("MON", "Monte Carlo", "masters"),
   ("MAD", "Madrid", "masters"),
   ("ROM", "Rome", "masters"),
   ("RG", "Roland Garros", "slam"),
   ("WIM", "Wimbledon", "slam"),
   ("CAN", "Canada", "masters"),
   ("CIN", "Cincinnati", "masters"),
   ("USO", "US Open", "slam"),
   ("SHA", "Shanghai", "masters"),
   ("PAR", "Paris", "masters")]

/-- Model of `ALLOWED_ROUNDS`, src/app.py line 44. -/
def ALLOWED_ROUNDS : List String :=
  ["W", "F", "SF", "QF", "R16", "R32", "R64", "R128"]

/-- Model of `POINTS`, src/app.py line 47 (association list in dict iteration
order, the order in which `points_case_sql` emits the `WHEN` arms). -/
def POINTS : List (String × Int) :=
  [("W", 100), ("F", 60), ("SF", 40), ("QF", 25),
   ("R16", 15), ("R32", 8), ("R64", 4), ("R128", 2)]

/-- The SQL `CASE r.round_reached WHEN ... ELSE 0 END` built by
`points_case_sql` (src/app.py lines 143-146), applied to the value of
`r.round_reached` coming out of the LEFT JOIN (`none` = SQL NULL, in which
case no `WHEN` arm matches and the `ELSE 0` fires). -/
def pointsCase : Option String → Int
  | none => 0
  | some r => (POINTS.lookup r).getD 0

/-! ## Ranking engine (src/app.py lines 167-201) -/

/-- One output record of `rank_with_ties`:
`{"person": ..., "total": ..., "rank": ..., "medal": ...}`. -/
structure Ranked where
  person : String
  total : Int
  rank : Nat
  medal : String
deriving Repr, DecidableEq

/-- The guard `prev_total is None or total != prev_total` of src/app.py
line 181. -/
def isNewTotal (prev : Option Int) (total : Int) : Bool :=
  match prev with
  | none => true
  | some pt => decide (total ≠ pt)

/-- The loop body of `rank_with_ties` (src/app.py lines 179-199), with the
loop state `prev_total` / `rank` / `seen` made explicit.  `prev = none`
models Python's initial `prev_total = None`. -/
def rankAux (prev : Option Int) (rank seen : Nat) : List (String × Int) → List Ranked
  | [] => []
  | (person, total) :: rest =>
    let seen1 := seen + 1
    let rank1 := if isNewTotal prev total then seen1 else rank
    let prev1 := if isNewTotal prev total then some total else prev
    let medal :=
      if rank1 = 1 then "🥇"
      else if rank1 = 2 then "🥈"
      else if rank1 = 3 then "🥉"
      else ""
    ⟨person, total, rank1, medal⟩ :: rankAux prev1 rank1 seen1 rest

/-- Model of `rank_with_ties` (src/app.py lines 167-201): initial state
`prev_total = None`, `rank = 0`, `seen = 0`. -/
def rank_with_ties (totals : List (String × Int)) : List Ranked :=
  rankAux none 0 0 totals

/-- The medal rule of src/app.py lines 185-192, as a function of the rank
alone (the claim C4 property). -/
def medalFor (rank : Nat) : String :=
  if rank = 1 then "🥇"
  else if rank = 2 then "🥈"
  else if rank = 3 then "🥉"
  else ""

/-- Lexicographic code-point comparison of character lists, modelling the
collation of Postgres `ORDER BY ... ASC` on text columns. -/
def strLeB : List Char → List Char → Bool
  | [], _ => true
  | _ :: _, [] => false
  | a :: as, b :: bs =>
    if a.toNat < b.toNat then true
    else if a.toNat = b.toNat then strLeB as bs
    else false

/-- Holds when `a` sorts no later than `b` as a SQL text column (lexicographic,
total, transitive; kernel-reducible unlike Mathlib's `String` order). -/
def strLE (a b : String) : Prop :=
  strLeB a.data b.data = true

instance (a b : String) : Decidable (strLE a b) :=
  inferInstanceAs (Decidable (strLeB a.data b.data = true))

theorem strLeB_total (xs : List Char) :
    ∀ ys, strLeB xs ys = true ∨ strLeB ys xs = true := by
  induction xs with
  | nil => intro ys; left; rfl
  | cons a as ih =>
    intro ys
    cases ys with
    | nil => right; rfl
    | cons b bs =>
      by_cases h1 : a.toNat < b.toNat
      · left
        simp only [strLeB]
        rw [if_pos h1]
      · by_cases h2 : a.toNat = b.toNat
        · rcases ih bs with h | h
          · left
            simp only [strLeB]
            rw [if_neg h1, if_pos h2]
            exact h
          · right
            simp only [strLeB]
            rw [if_neg (show ¬b.toNat < a.toNat by omega),
              if_pos (show b.toNat = a.toNat by omega)]
            exact h
        · right
          simp only [strLeB]
          rw [if_pos (show b.toNat < a.toNat by omega)]

theorem strLeB_trans (xs : List Char) :
    ∀ ys zs, strLeB xs ys = true → strLeB ys zs = true → strLeB xs zs = true := by
  induction xs with
  | nil => intro ys zs _ _; rfl
  | cons a as ih =>
    intro ys zs h1 h2
    cases ys with
    | nil => simp [strLeB] at h1
    | cons b bs =>
      cases zs with
      | nil => simp [strLeB] at h2
      | cons c cs =>
        simp only [strLeB] at h1 h2 ⊢
        by_cases hab : a.toNat < b.toNat <;> by_cases hbc : b.toNat < c.toNat
        · rw [if_pos (show a.toNat < c.toNat by omega)]
        · rw [if_neg hbc] at h2
          by_cases hbc2 : b.toNat = c.toNat
          · rw [if_pos (show a.toNat < c.toNat by omega)]
          · rw [if_neg hbc2] at h2
            exact absurd h2 (by simp)
        · rw [if_neg hab] at h1
          by_cases hab2 : a.toNat = b.toNat
          · rw [if_pos (show a.toNat < c.toNat by omega)]
          · rw [if_neg hab2] at h1
            exact absurd h1 (by simp)
        · rw [if_neg hab] at h1
          rw [if_neg hbc] at h2
          by_cases hab2 : a.toNat = b.toNat
          · by_cases hbc2 : b.toNat = c.toNat
            · rw [if_pos hab2] at h1
              rw [if_pos hbc2] at h2
              rw [if_neg (show ¬a.toNat < c.toNat by omega),
                if_pos (show a.toNat = c.toNat by omega)]
              exact ih bs cs h1 h2
            · rw [if_neg hbc2] at h2
              exact absurd h2 (by simp)
          · rw [if_neg hab2] at h1
            exact absurd h1 (by simp)

/-- Sort key of `ORDER BY total DESC, person ASC` (src/app.py line 163):
`a` comes no later than `b`. -/
def totalsLE (a b : String × Int) : Prop :=
  b.2 < a.2 ∨ (a.2 = b.2 ∧ strLE a.1 b.1)

instance : DecidableRel totalsLE := fun a b =>
  inferInstanceAs (Decidable (b.2 < a.2 ∨ (a.2 = b.2 ∧ strLE a.1 b.1)))

instance : IsTotal (String × Int) totalsLE := by
  constructor
  intro a b
  rcases lt_trichotomy a.2 b.2 with h | h | h
  · exact Or.inr (Or.inl h)
  · rcases strLeB_total a.1.data b.1.data with h1 | h1
    · exact Or.inl (Or.inr ⟨h, h1⟩)
    · exact Or.inr (Or.inr ⟨h.symm, h1⟩)
  · exact Or.inl (Or.inl h)

instance : IsTrans (String × Int) totalsLE := by
  constructor
  intro a b c hab hbc
  rcases hab with h | ⟨he, hn⟩
  · rcases hbc with h2 | ⟨he2, _⟩
    · exact Or.inl (h2.trans h)
    · exact Or.inl (he2 ▸ h)
  · rcases hbc with h2 | ⟨he2, hn2⟩
    · exact Or.inl (he ▸ h2)
    · exact Or.inr ⟨he.trans he2, strLeB_trans _ _ _ hn hn2⟩

/-! ## Database state (schema of init_db, src/app.py lines 60-118) -/

/-- A row of the `events` table.  `sortOrder` models the `sort_order`
attribute the seed INSERT and the breakdown query use; see
`eventsTableColumns` for the column set the CREATE TABLE actually declares. -/
structure Event where
  id : String
  short_id : String
  name : String
  level : String
  sortOrder : Nat
  year : Int
deriving Repr, DecidableEq

/-- A row of the `predictions` table. -/
structure Prediction where
  event_id : String
  person_name : String
  player_name : String
deriving Repr, DecidableEq

/-- A row of the `results` table. -/
structure ResultRow where
  event_id : String
  player_name : String
  round_reached : String
deriving Repr, DecidableEq

/-- The relational store: `people`, `events`, `predictions`, `results`.
Primary keys (`people.name`, `events.id`, `predictions.(event_id,person_name)`,
`results.(event_id,player_name)`) make matching rows unique; all writes below
go through the corresponding upserts, so lookups use the first match. -/
structure Db where
  people : List String
  events : List Event
  predictions : List Prediction
  results : List ResultRow
deriving Repr, DecidableEq

/-- The store after a transaction that only rewrote the `results` table. -/
def withResults (db : Db) (rs : List ResultRow) : Db :=
  { db with results := rs }

/-- Model of `LEFT JOIN results r ON r.event_id = ... AND r.player_name = ...`
(src/app.py lines 158-160): the unique `round_reached` for the key, or
`none` (SQL NULL) when no result row exists. -/
def resultLookup (db : Db) (e pl : String) : Option String :=
  (db.results.find? (fun r => decide (r.event_id = e) && decide (r.player_name = pl))).map
    (fun r => r.round_reached)

/-- Model of `JOIN events e ON e.id = p.event_id` followed by the `e.year` column:
the year of the (unique) event with this id, `none` when the join drops the
row. -/
def eventYear (db : Db) (eid : String) : Option Int :=
  (db.events.find? (fun e => decide (e.id = eid))).map (fun e => e.year)

/-! ## Scoring engine: calc_totals (src/app.py lines 149-165) -/

/-- The joined row set of the `calc_totals` query before GROUP BY: one row
per prediction of a year-`year` event, carrying the person and the points
the CASE expression computes for the LEFT-JOINed result. -/
def totalsRows (year : Int) (db : Db) : List (String × Int) :=
  (db.predictions.filter (fun p => decide (eventYear db p.event_id = some year))).map
    (fun p => (p.person_name, pointsCase (resultLookup db p.event_id p.player_name)))

/-- The `SUM(...)` of the `GROUP BY p.person_name` group of person `n`. -/
def groupTotal (year : Int) (db : Db) (n : String) : Int :=
  (((totalsRows year db).filter (fun r => decide (r.1 = n))).map (fun r => r.2)).sum

/-- Model of `calc_totals` (src/app.py lines 149-165): one `(person, total)` pair per
distinct person among the joined rows, sorted by
`ORDER BY total DESC, person ASC`. -/
def calc_totals (year : Int) (db : Db) : List (String × Int) :=
  List.insertionSort totalsLE
    ((((totalsRows year db).map (fun r => r.1)).dedup).map
      (fun n => (n, groupTotal year db n)))

/-! ## Store writes (src/app.py lines 253-263, 283-309, 338-363) -/

instance {ε α : Type} [DecidableEq ε] [DecidableEq α] : DecidableEq (Except ε α) := fun x y =>
  match x, y with
  | Except.error e1, Except.error e2 =>
    if h : e1 = e2 then isTrue (by rw [h]) else isFalse (fun hh => by cases hh; exact h rfl)
  | Except.ok a1, Except.ok a2 =>
    if h : a1 = a2 then isTrue (by rw [h]) else isFalse (fun hh => by cases hh; exact h rfl)
  | Except.error _, Except.ok _ => isFalse (fun hh => by cases hh)
  | Except.ok _, Except.error _ => isFalse (fun hh => by cases hh)

/-- Python `str.strip()`: drop leading and trailing whitespace.  Modelled
over the character list (Lean's `String.trim` is not kernel-reducible);
`Char.isWhitespace` covers the ASCII whitespace relevant here. -/
def pyStrip (s : String) : String :=
  ⟨((s.data.dropWhile Char.isWhitespace).reverse.dropWhile Char.isWhitespace).reverse⟩

/-- Python `str.upper()`, on the ASCII strings at issue: uppercase every
character. -/
def pyUpper (s : String) : String :=
  ⟨s.data.map Char.toUpper⟩

/-- Model of `INSERT INTO people ... ON CONFLICT (name) DO NOTHING`. -/
def insertPerson (people : List String) (n : String) : List String :=
  if n ∈ people then people else people ++ [n]

/-- Model of `INSERT INTO predictions ... ON CONFLICT (event_id, person_name)
DO UPDATE SET player_name = excluded.player_name` (src/app.py lines 301-306). -/
def upsertPrediction (preds : List Prediction) (e p pl : String) : List Prediction :=
  if preds.any (fun q => decide (q.event_id = e) && decide (q.person_name = p)) then
    preds.map (fun q =>
      if q.event_id = e ∧ q.person_name = p then { q with player_name := pl } else q)
  else preds ++ [⟨e, p, pl⟩]

/-- Model of `INSERT INTO results ... ON CONFLICT (event_id, player_name)
DO UPDATE SET round_reached = excluded.round_reached` (src/app.py lines 356-361). -/
def upsertResult (rs : List ResultRow) (e pl r : String) : List ResultRow :=
  if rs.any (fun q => decide (q.event_id = e) && decide (q.player_name = pl)) then
    rs.map (fun q =>
      if q.event_id = e ∧ q.player_name = pl then { q with round_reached := r } else q)
  else rs ++ [⟨e, pl, r⟩]

/-- Model of `submit_pick` (src/app.py lines 283-309).  Strips the three fields,
rejects when any is empty (Python falsiness of the stripped strings), then in
one transaction upserts the person and the prediction.  The
`predictions.event_id` FOREIGN KEY makes the transaction abort (nothing
written, modelled by `Except.error`) when the event id does not exist. -/
def submit_pick (person event_id player : String) (db : Db) : Except String Db :=
  let person := pyStrip person
  let event_id := pyStrip event_id
  let player := pyStrip player
  if person = "" ∨ event_id = "" ∨ player = "" then
    Except.error "Missing fields."
  else if db.events.all (fun e => decide (e.id ≠ event_id)) then
    Except.error "foreign key violation: predictions.event_id"
  else
    Except.ok { db with
      people := insertPerson db.people person,
      predictions := upsertPrediction db.predictions event_id person player }

/-- Model of `submit_result` (src/app.py lines 338-363).  Checks the commissioner
key, strips `event_id` and `player`, normalises the round with
`strip().upper()`, rejects a round outside `ALLOWED_ROUNDS`, then upserts
the result row.  The `results.event_id` FOREIGN KEY aborts the transaction
for an unknown event id.  Note: no emptiness check on `player`. -/
def submit_result (commissioner_key event_id player round_reached : String)
    (ck : String) (db : Db) : Except String Db :=
  if commissioner_key ≠ ck then
    Except.error "Wrong commissioner key."
  else
    let event_id := pyStrip event_id
    let player := pyStrip player
    let round1 := pyUpper (pyStrip round_reached)
    if round1 ∉ ALLOWED_ROUNDS then
      Except.error "Invalid round."
    else if db.events.all (fun e => decide (e.id ≠ event_id)) then
      Except.error "foreign key violation: results.event_id"
    else
      Except.ok { db with results := upsertResult db.results event_id player round1 }

/-! ## init_db (src/app.py lines 60-118) -/

/-- Column list of `CREATE TABLE IF NOT EXISTS events` (src/app.py lines
69-77).  Note: no `sort_order` column is declared. -/
def eventsTableColumns : List String :=
  ["id", "short_id", "name", "level", "year"]

/-- Column list of the seed `INSERT INTO events (...)` (src/app.py lines
103-110). -/
def seedInsertColumns : List String :=
  ["id", "short_id", "name", "level", "sort_order", "year"]

/-- State of the `events` table together with its schema: `eventsCols = none`
means the table does not exist yet (fresh database). -/
structure SchemaDb where
  eventsCols : Option (List String)
  events : List Event
deriving Repr, DecidableEq

/-- Model of `INSERT INTO events ... ON CONFLICT (id) DO UPDATE SET short_id, name,
level, sort_order` (src/app.py lines 103-110); `year` is not updated on
conflict. -/
def upsertEvent (evs : List Event) (e : Event) : List Event :=
  if evs.any (fun x => decide (x.id = e.id)) then
    evs.map (fun x =>
      if x.id = e.id then
        { x with short_id := e.short_id, name := e.name,
                 level := e.level, sortOrder := e.sortOrder }
      else x)
  else evs ++ [e]

/-- The seed loop of `init_db` (src/app.py lines 100-118): one INSERT per
catalog entry, `sort_order` = 1-based catalog index, event id =
short id ++ year.  Each INSERT first requires every column it names to exist
in the `events` table (Postgres raises `undefined column` otherwise, which
aborts the whole transaction). -/
def seedEvents (year : Int) (cols : List String) :
    List (Nat × (String × String × String)) → List Event → Except String (List Event)
  | [], evs => Except.ok evs
  | (i, (sid, nm, lvl)) :: rest, evs =>
    if seedInsertColumns.all (fun c => cols.contains c) then
      seedEvents year cols rest
        (upsertEvent evs ⟨sid ++ toString year, sid, nm, lvl, i + 1, year⟩)
    else
      Except.error "column sort_order of relation events does not exist"

/-- Model of `init_db` (src/app.py lines 60-118): inside one transaction, create the
tables when absent (`CREATE TABLE IF NOT EXISTS`, which never alters an
existing table's columns) and run the 13 seed INSERTs.  On any error the
transaction rolls back: the function returns `Except.error` and no state
change survives. -/
def init_db (year : Int) (d : SchemaDb) : Except String SchemaDb :=
  let cols := d.eventsCols.getD eventsTableColumns
  match seedEvents year cols EVENTS_ORDERED.enum d.events with
  | Except.ok evs => Except.ok { eventsCols := some cols, events := evs }
  | Except.error e => Except.error e

/-! ## Breakdown aggregator (src/app.py lines 204-235, 311-326) -/

/-- One fetched row of the `calc_event_breakdown` query (src/app.py lines
211-223): `e.id, e.short_id, e.name, p.person_name, p.player_name,
COALESCE(r.round_reached, ''), CASE ... AS pts`.  `sortOrder` carries the
`e.sort_order` value the `ORDER BY` uses (determined by the joined event,
not selected by the Python code, which is why `addRow` below ignores it). -/
structure BRow where
  event_id : String
  short_id : String
  name : String
  person : String
  player : String
  round : String
  pts : Int
  sortOrder : Nat
deriving Repr, DecidableEq

/-- Sort key of `ORDER BY e.sort_order ASC, p.person_name` (src/app.py
line 222). -/
def browLE (a b : BRow) : Prop :=
  a.sortOrder < b.sortOrder ∨ (a.sortOrder = b.sortOrder ∧ strLE a.person b.person)

instance : DecidableRel browLE := fun a b =>
  inferInstanceAs (Decidable (a.sortOrder < b.sortOrder ∨
    (a.sortOrder = b.sortOrder ∧ strLE a.person b.person)))

instance : IsTotal BRow browLE := by
  constructor
  intro a b
  rcases Nat.lt_trichotomy a.sortOrder b.sortOrder with h | h | h
  · exact Or.inl (Or.inl h)
  · rcases strLeB_total a.person.data b.person.data with h1 | h1
    · exact Or.inl (Or.inr ⟨h, h1⟩)
    · exact Or.inr (Or.inr ⟨h.symm, h1⟩)
  · exact Or.inr (Or.inl h)

instance : IsTrans BRow browLE := by
  constructor
  intro a b c hab hbc
  rcases hab with h | ⟨he, hn⟩
  · rcases hbc with h2 | ⟨he2, _⟩
    · exact Or.inl (h.trans h2)
    · exact Or.inl (he2 ▸ h)
  · rcases hbc with h2 | ⟨he2, hn2⟩
    · exact Or.inl (he ▸ h2)
    · exact Or.inr ⟨he.trans he2, strLeB_trans _ _ _ hn hn2⟩

/-- The row set fetched by the `calc_event_breakdown` query: one row per
prediction of a year-`year` event (INNER JOIN on events), LEFT-JOINed
against results, sorted by `(e.sort_order, p.person_name)`. -/
def breakdownRows (year : Int) (db : Db) : List BRow :=
  List.insertionSort browLE
    (db.predictions.filterMap (fun p =>
      match db.events.find? (fun e => decide (e.id = p.event_id)) with
      | none => none
      | some e =>
        if e.year = year then
          some ⟨e.id, e.short_id, e.name, p.person_name, p.player_name,
                (resultLookup db p.event_id p.player_name).getD "",
                pointsCase (resultLookup db p.event_id p.player_name),
                e.sortOrder⟩
        else none))

/-- One display row of an event block: `{"person", "player", "round",
"points"}` with `"round": rnd or "—"` and `"points": int(pts or 0)`
(src/app.py lines 229-234). -/
structure PRow where
  person : String
  player : String
  round : String
  points : Int
deriving Repr, DecidableEq

/-- One event block of the breakdown (src/app.py line 228). -/
structure EventBlock where
  event_id : String
  short_id : String
  name : String
  rows : List PRow
deriving Repr, DecidableEq

/-- The Python row dict built on src/app.py lines 229-234 (`rnd or "—"` maps
the empty string to the em-dash placeholder; `int(pts or 0)` is the identity
on the already-integral CASE value). -/
def mkPRow (r : BRow) : PRow :=
  ⟨r.person, r.player, if r.round = "" then "—" else r.round, r.pts⟩

/-- One step of the grouping loop (src/app.py lines 226-234):
`events.setdefault(event_id, ...)` followed by appending the row.  A Python
dict preserves insertion order, so a fresh event id appends a new block at
the end. -/
def addRow (blocks : List EventBlock) (r : BRow) : List EventBlock :=
  if blocks.any (fun b => decide (b.event_id = r.event_id)) then
    blocks.map (fun b =>
      if b.event_id = r.event_id then { b with rows := b.rows ++ [mkPRow r] } else b)
  else blocks ++ [⟨r.event_id, r.short_id, r.name, [mkPRow r]⟩]

/-- Model of `calc_event_breakdown` (src/app.py lines 204-235): fetch the sorted rows
and group them into event blocks, `list(events.values())`. -/
def calc_event_breakdown (year : Int) (db : Db) : List EventBlock :=
  (breakdownRows year db).foldl addRow []

/-- The filtering step of `breakdown_page` (src/app.py lines 311-326):
`if event_id:` keeps only the selected block; `None` and the empty string
are falsy and leave the list untouched. -/
def breakdown_page (year : Int) (db : Db) (event_id : Option String) : List EventBlock :=
  match event_id with
  | none => calc_event_breakdown year db
  | some e =>
    if e = "" then calc_event_breakdown year db
    else (calc_event_breakdown year db).filter (fun b => decide (b.event_id = e))

/-- The `sort_order` value the breakdown query's `ORDER BY e.sort_order`
reads for a given event id (0 when the event does not exist, in which case
the join drops the row anyway). -/
def eventSortOrder (db : Db) (eid : String) : Nat :=
  ((db.events.find? (fun x => decide (x.id = eid))).map (fun e => e.sortOrder)).getD 0

/-! ## Concrete stores used by witnesses and counterexamples -/

/-- Scenario A store: Alice predicts player X for AO2026 and X reaches the
final. -/
def aliceDb : Db :=
  { people := ["Alice"],
    events := [⟨"AO2026", "AO", "Australian Open", "slam", 1, 2026⟩],
    predictions := [⟨"AO2026", "Alice", "X"⟩],
    results := [⟨"AO2026", "X", "F"⟩] }

/-- Scenario C store: Dana is in the people table but has no predictions. -/
def danaDb : Db :=
  { people := ["Dana"],
    events := [⟨"AO2026", "AO", "Australian Open", "slam", 1, 2026⟩],
    predictions := [],
    results := [] }

/-- A store with two events and three predictions, exercising the breakdown
grouping (Scenario E flavour). -/
def bdDb : Db :=
  { people := ["Alice", "Bob"],
    events := [⟨"AO2026", "AO", "Australian Open", "slam", 1, 2026⟩,
               ⟨"RG2026", "RG", "Roland Garros", "slam", 7, 2026⟩],
    predictions := [⟨"RG2026", "Bob", "Y"⟩, ⟨"AO2026", "Alice", "X"⟩,
                    ⟨"AO2026", "Bob", "Z"⟩],
    results := [⟨"AO2026", "X", "F"⟩] }

/-! ## Helper lemmas: ranking engine -/

theorem isNewTotal_same (t : Int) : isNewTotal (some t) t = false := by
  simp [isNewTotal]

theorem isNewTotal_diff {t pt : Int} (h : t ≠ pt) : isNewTotal (some pt) t = true := by
  simp [isNewTotal, h]

theorem rankAux_cons (prev : Option Int) (rank seen : Nat) (p : String) (t : Int)
    (rest : List (String × Int)) :
    rankAux prev rank seen ((p, t) :: rest)
      = ⟨p, t, if isNewTotal prev t then seen + 1 else rank,
          medalFor (if isNewTotal prev t then seen + 1 else rank)⟩
        :: rankAux (if isNewTotal prev t then some t else prev)
            (if isNewTotal prev t then seen + 1 else rank) (seen + 1) rest := rfl

theorem rankAux_cons_new {prev : Option Int} {t : Int} (h : isNewTotal prev t = true)
    (rank seen : Nat) (p : String) (rest : List (String × Int)) :
    rankAux prev rank seen ((p, t) :: rest)
      = ⟨p, t, seen + 1, medalFor (seen + 1)⟩ :: rankAux (some t) (seen + 1) (seen + 1) rest := by
  simp [rankAux_cons, h]

theorem rankAux_cons_old {prev : Option Int} {t : Int} (h : isNewTotal prev t = false)
    (rank seen : Nat) (p : String) (rest : List (String × Int)) :
    rankAux prev rank seen ((p, t) :: rest)
      = ⟨p, t, rank, medalFor rank⟩ :: rankAux prev rank (seen + 1) rest := by
  simp [rankAux_cons, h]

theorem rankAux_length (prev : Option Int) (rank seen : Nat) (l : List (String × Int)) :
    (rankAux prev rank seen l).length = l.length := by
  induction l generalizing prev rank seen with
  | nil => rfl
  | cons a rest ih =>
    obtain ⟨p, t⟩ := a
    cases hc : isNewTotal prev t
    · rw [rankAux_cons_old hc]; simp [ih]
    · rw [rankAux_cons_new hc]; simp [ih]

theorem rankAux_map_person_total (prev : Option Int) (rank seen : Nat)
    (l : List (String × Int)) :
    (rankAux prev rank seen l).map (fun e => (e.person, e.total)) = l := by
  induction l generalizing prev rank seen with
  | nil => rfl
  | cons a rest ih =>
    obtain ⟨p, t⟩ := a
    cases hc : isNewTotal prev t
    · rw [rankAux_cons_old hc]; simp [ih]
    · rw [rankAux_cons_new hc]; simp [ih]

theorem rankAux_medal_eq (prev : Option Int) (rank seen : Nat) (l : List (String × Int)) :
    ∀ e ∈ rankAux prev rank seen l, e.medal = medalFor e.rank := by
  induction l generalizing prev rank seen with
  | nil => intro e he; cases he
  | cons a rest ih =>
    obtain ⟨p, t⟩ := a
    intro e he
    rw [rankAux_cons] at he
    rcases List.mem_cons.mp he with h | h
    · subst h; rfl
    · exact ih _ _ _ e h

theorem rankAux_rank_bound (l : List (String × Int)) :
    ∀ (prev : Option Int) (rank seen : Nat), 1 ≤ rank → rank ≤ seen →
    ∀ i e, (rankAux prev rank seen l).get? i = some e →
      1 ≤ e.rank ∧ e.rank ≤ seen + i + 1 := by
  induction l with
  | nil =>
    intro prev rank seen _ _ i e h
    simp [rankAux] at h
  | cons a rest ih =>
    obtain ⟨p, t⟩ := a
    intro prev rank seen h1 h2 i e hget
    cases hc : isNewTotal prev t
    · rw [rankAux_cons_old hc] at hget
      cases i with
      | zero =>
        rw [List.get?_cons_zero] at hget
        injection hget with hh
        subst hh
        refine ⟨h1, ?_⟩
        show rank ≤ seen + 0 + 1
        omega
      | succ i =>
        rw [List.get?_cons_succ] at hget
        have := ih prev rank (seen + 1) h1 (by omega) i e hget
        omega
    · rw [rankAux_cons_new hc] at hget
      cases i with
      | zero =>
        rw [List.get?_cons_zero] at hget
        injection hget with hh
        subst hh
        refine ⟨?_, ?_⟩
        · show 1 ≤ seen + 1
          omega
        · show seen + 1 ≤ seen + 0 + 1
          omega
      | succ i =>
        rw [List.get?_cons_succ] at hget
        have := ih (some t) (seen + 1) (seen + 1) (by omega) (by omega) i e hget
        omega

theorem rankAux_rank_spec (l : List (String × Int)) :
    ∀ (pt : Int) (rank seen : Nat),
    List.Pairwise (fun a b : String × Int => b.2 ≤ a.2) l →
    (∀ e ∈ l, e.2 ≤ pt) →
    ∀ i, ((rankAux (some pt) rank seen l).get? i).map (fun e => e.rank)
      = (l.get? i).map (fun e =>
          if e.2 = pt then rank
          else seen + l.findIdx (fun x => x.2 == e.2) + 1) := by
  induction l with
  | nil => intro pt rank seen _ _ i; cases i <;> rfl
  | cons a rest ih =>
    obtain ⟨p, t⟩ := a
    intro pt rank seen hs hb i
    have hdesc := hs.of_cons
    have hhead : ∀ b ∈ rest, b.2 ≤ t := (List.pairwise_cons.mp hs).1
    have htle : t ≤ pt := hb (p, t) (List.mem_cons_self _ _)
    by_cases hteq : t = pt
    · subst hteq
      rw [rankAux_cons_old (isNewTotal_same t)]
      cases i with
      | zero => simp
      | succ i =>
        rw [List.get?_cons_succ, List.get?_cons_succ]
        rw [ih t rank (seen + 1) hdesc (fun e he => hb e (List.mem_cons_of_mem _ he)) i]
        rcases hr : rest.get? i with _ | e
        · rfl
        · by_cases h2 : e.2 = t
          · simp [h2]
          · have hbeq : (t == e.2) = false :=
              beq_eq_false_iff_ne.mpr (fun hcon => h2 hcon.symm)
            simp only [Option.map_some', Option.some.injEq, if_neg h2,
              List.findIdx_cons, hbeq, cond_false]
            omega
    · have htlt : t < pt := lt_of_le_of_ne htle hteq
      rw [rankAux_cons_new (isNewTotal_diff hteq)]
      cases i with
      | zero =>
        simp [List.findIdx_cons, hteq]
      | succ i =>
        rw [List.get?_cons_succ, List.get?_cons_succ]
        rw [ih t (seen + 1) (seen + 1) hdesc hhead i]
        rcases hr : rest.get? i with _ | e
        · rfl
        · have he : e ∈ rest := List.get?_mem hr
          have he2 : e.2 ≤ t := hhead e he
          have hnept : e.2 ≠ pt := ne_of_lt (lt_of_le_of_lt he2 htlt)
          by_cases h2 : e.2 = t
          · have hbeq : (t == e.2) = true := by rw [h2]; exact beq_self_eq_true t
            simp only [Option.map_some', Option.some.injEq, if_pos h2, if_neg hnept,
              List.findIdx_cons, hbeq, cond_true]
            try omega
          · have hbeq : (t == e.2) = false :=
              beq_eq_false_iff_ne.mpr (fun hcon => h2 hcon.symm)
            simp only [Option.map_some', Option.some.injEq, if_neg h2, if_neg hnept,
              List.findIdx_cons, hbeq, cond_false]
            omega

/-! ## Claims about the ranking engine -/

/-- C1: for every input list sorted descending by total then ascending by
person name, `rank_with_ties` assigns to each entry the 1-based position of
the first entry having that total (competition ranking: tied totals share a
rank, and ranks are positions, so ties never compress subsequent ranks). -/
theorem C1_competition_rank (l : List (String × Int)) (hs : List.Pairwise totalsLE l) :
    ∀ i, ((rank_with_ties l).get? i).map (fun e => e.rank)
      = (l.get? i).map (fun e => l.findIdx (fun x => x.2 == e.2) + 1) := by
  cases l with
  | nil => intro i; cases i <;> rfl
  | cons a rest =>
    obtain ⟨p, t⟩ := a
    have hdesc : List.Pairwise (fun a b : String × Int => b.2 ≤ a.2) ((p, t) :: rest) :=
      hs.imp (fun h => by
        rcases h with h | ⟨he, _⟩
        · exact le_of_lt h
        · exact le_of_eq he.symm)
    have hhead : ∀ b ∈ rest, b.2 ≤ t := (List.pairwise_cons.mp hdesc).1
    intro i
    rw [rank_with_ties, rankAux_cons_new (show isNewTotal none t = true from rfl)]
    cases i with
    | zero =>
      have hbeq : (t == t) = true := beq_self_eq_true t
      simp [List.findIdx_cons, hbeq]
    | succ i =>
      rw [List.get?_cons_succ, List.get?_cons_succ]
      rw [rankAux_rank_spec rest t (0 + 1) (0 + 1) hdesc.of_cons hhead i]
      rcases hr : rest.get? i with _ | e
      · rfl
      · by_cases h2 : e.2 = t
        · have hbeq : (t == e.2) = true := by rw [h2]; exact beq_self_eq_true t
          simp only [Option.map_some', Option.some.injEq, if_pos h2,
            List.findIdx_cons, hbeq, cond_true]
        · have hbeq : (t == e.2) = false :=
            beq_eq_false_iff_ne.mpr (fun hcon => h2 hcon.symm)
          simp only [Option.map_some', Option.some.injEq, if_neg h2,
            List.findIdx_cons, hbeq, cond_false]
          omega

/-- Witness for C1 on Scenario B data: in
`[("Alice", 80), ("Bob", 80), ("Carol", 60)]` (sorted descending / name
ascending) the third entry gets rank 3, the 1-based position of the first
entry with total 60. -/
theorem C1_witness :
    ((rank_with_ties [("Alice", (80 : Int)), ("Bob", 80), ("Carol", 60)]).get? 2).map
        (fun e => e.rank)
      = ([("Alice", (80 : Int)), ("Bob", 80), ("Carol", 60)].get? 2).map
        (fun e =>
          [("Alice", (80 : Int)), ("Bob", 80), ("Carol", 60)].findIdx
            (fun x => x.2 == e.2) + 1) :=
  C1_competition_rank [("Alice", 80), ("Bob", 80), ("Carol", 60)] (by decide) 2

/-- C4: the medal marker is a pure function of the assigned rank (1 gold,
2 silver, 3 bronze, otherwise none); and after two entries tied for the top
total, the next distinct total gets rank 3 with the bronze marker, never
silver (ranks 1, 1, 3). -/
theorem C4_medal_from_rank :
    (∀ l, ∀ e ∈ rank_with_ties l, e.medal = medalFor e.rank) ∧
    (∀ (pa : String) (ta : Int) (pb : String) (tb : Int) (pc : String) (tc : Int)
        (rest : List (String × Int)), ta = tb → tc ≠ tb →
      rank_with_ties ((pa, ta) :: (pb, tb) :: (pc, tc) :: rest)
        = ⟨pa, ta, 1, "🥇"⟩ :: ⟨pb, tb, 1, "🥇"⟩ :: ⟨pc, tc, 3, "🥉"⟩
            :: rankAux (some tc) 3 3 rest) := by
  constructor
  · intro l e he
    exact rankAux_medal_eq none 0 0 l e he
  · intro pa ta pb tb pc tc rest hab hcb
    subst hab
    have h3 : isNewTotal (some ta) tc = true := isNewTotal_diff hcb
    rw [rank_with_ties, rankAux_cons_new (show isNewTotal none ta = true from rfl),
      rankAux_cons_old (isNewTotal_same ta), rankAux_cons_new h3]
    rfl

/-- Witness for C4 on Scenario B: Alice 80, Bob 80, Carol 60 rank as
1 (gold), 1 (gold), 3 (bronze), and every medal agrees with `medalFor` of
the rank. -/
theorem C4_witness :
    rank_with_ties [("Alice", (80 : Int)), ("Bob", 80), ("Carol", 60)]
      = [⟨"Alice", 80, 1, "🥇"⟩, ⟨"Bob", 80, 1, "🥇"⟩, ⟨"Carol", 60, 3, "🥉"⟩] ∧
    (⟨"Carol", (60 : Int), 3, "🥉"⟩ : Ranked).medal
      = medalFor (⟨"Carol", (60 : Int), 3, "🥉"⟩ : Ranked).rank := by
  have h := C4_medal_from_rank.2 "Alice" 80 "Bob" 80 "Carol" 60 [] rfl (by decide)
  refine ⟨h.trans rfl, ?_⟩
  exact C4_medal_from_rank.1 [("Alice", 80), ("Bob", 80), ("Carol", 60)]
    ⟨"Carol", 60, 3, "🥉"⟩ (by rw [h]; decide)

/-- C10: on every input (sorted or not) `rank_with_ties` terminates with a
list of the same length, preserving each entry's person and total in order;
the rank at 1-based position `i` lies between 1 and `i`, and the first
entry always gets rank 1. -/
theorem C10_shape_invariants (l : List (String × Int)) :
    (rank_with_ties l).length = l.length ∧
    (rank_with_ties l).map (fun e => (e.person, e.total)) = l ∧
    (∀ i e, (rank_with_ties l).get? i = some e → 1 ≤ e.rank ∧ e.rank ≤ i + 1) ∧
    (∀ e, (rank_with_ties l).get? 0 = some e → e.rank = 1) := by
  have hbound : ∀ i e, (rank_with_ties l).get? i = some e → 1 ≤ e.rank ∧ e.rank ≤ i + 1 := by
    intro i e hget
    cases l with
    | nil => simp [rank_with_ties, rankAux] at hget
    | cons a rest =>
      obtain ⟨p, t⟩ := a
      rw [rank_with_ties, rankAux_cons_new (show isNewTotal none t = true from rfl)] at hget
      cases i with
      | zero =>
        rw [List.get?_cons_zero] at hget
        injection hget with hh
        subst hh
        exact ⟨le_refl 1, le_refl 1⟩
      | succ i =>
        rw [List.get?_cons_succ] at hget
        have := rankAux_rank_bound rest (some t) (0 + 1) (0 + 1)
          (le_refl 1) (le_refl 1) i e hget
        omega
  refine ⟨rankAux_length none 0 0 l, rankAux_map_person_total none 0 0 l, hbound, ?_⟩
  intro e hget
  have := hbound 0 e hget
  omega

/-- Witness for C10 on an unsorted input `[("A", 3), ("B", 9)]`: length and
contents are preserved and the second rank lies between 1 and 2. -/
theorem C10_witness :
    (rank_with_ties [("A", (3 : Int)), ("B", 9)]).length = 2 ∧
    (1 ≤ (⟨"B", (9 : Int), 2, "🥈"⟩ : Ranked).rank ∧
      (⟨"B", (9 : Int), 2, "🥈"⟩ : Ranked).rank ≤ 1 + 1) := by
  refine ⟨(C10_shape_invariants [("A", 3), ("B", 9)]).1.trans (by decide), ?_⟩
  exact (C10_shape_invariants [("A", 3), ("B", 9)]).2.2.1 1 ⟨"B", 9, 2, "🥈"⟩ (by decide)

/-! ## Helper lemmas: scoring engine -/

theorem groupTotal_eq (year : Int) (db : Db) (n : String) :
    groupTotal year db n
      = ((db.predictions.filter (fun p =>
            decide (p.person_name = n) && decide (eventYear db p.event_id = some year))).map
          (fun p => pointsCase (resultLookup db p.event_id p.player_name))).sum := by
  unfold groupTotal totalsRows
  generalize db.predictions = l
  induction l with
  | nil => rfl
  | cons a l ih =>
    by_cases h1 : eventYear db a.event_id = some year
    · by_cases h2 : a.person_name = n
      · simp [List.filter_cons, h1, h2, ← ih]
      · simp [List.filter_cons, h1, h2, ← ih]
    · simp [List.filter_cons, h1, ← ih]

theorem mem_calc_totals {year : Int} {db : Db} {n : String} {t : Int}
    (h : (n, t) ∈ calc_totals year db) :
    t = groupTotal year db n ∧ n ∈ (totalsRows year db).map (fun r => r.1) := by
  unfold calc_totals at h
  have h2 := (List.perm_insertionSort totalsLE _).mem_iff.mp h
  rcases List.mem_map.mp h2 with ⟨n1, hn1, heq⟩
  have hfst : n1 = n := congrArg Prod.fst heq
  have hsnd := congrArg Prod.snd heq
  subst hfst
  exact ⟨hsnd.symm, List.mem_dedup.mp hn1⟩

theorem calc_totals_mem {year : Int} {db : Db} {p : Prediction}
    (hp : p ∈ db.predictions) (hy : eventYear db p.event_id = some year) :
    (p.person_name, groupTotal year db p.person_name) ∈ calc_totals year db := by
  unfold calc_totals
  refine (List.perm_insertionSort totalsLE _).mem_iff.mpr ?_
  refine List.mem_map.mpr ⟨p.person_name, List.mem_dedup.mpr ?_, rfl⟩
  refine List.mem_map.mpr
    ⟨(p.person_name, pointsCase (resultLookup db p.event_id p.player_name)), ?_, rfl⟩
  unfold totalsRows
  exact List.mem_map.mpr ⟨p, List.mem_filter.mpr ⟨hp, by simp [hy]⟩, rfl⟩

theorem lookup_getD_nonneg (s : String) (l : List (String × Int))
    (h : ∀ kv ∈ l, 0 ≤ kv.2) : 0 ≤ (List.lookup s l).getD 0 := by
  induction l with
  | nil => simp [List.lookup]
  | cons kv l ih =>
    obtain ⟨k, v⟩ := kv
    cases hk : (s == k)
    · simp only [List.lookup, hk]
      exact ih (fun x hx => h x (List.mem_cons_of_mem _ hx))
    · simp only [List.lookup, hk, Option.getD_some]
      exact h (k, v) (List.mem_cons_self _ _)

theorem pointsCase_nonneg (o : Option String) : 0 ≤ pointsCase o := by
  cases o with
  | none => exact le_refl 0
  | some s => exact lookup_getD_nonneg s POINTS (by decide)

/-! ## Claims about the scoring engine -/

/-- C2: every entry of `calc_totals` carries, for its person, the sum over
that person's predictions for the year of the points of the predicted
player's recorded round under `POINTS` (0 when no result row or unknown
round, via `pointsCase`); the output is sorted descending by total with
ties broken by person name ascending; and every person with a prediction
for the year appears. -/
theorem C2_totals_spec (year : Int) (db : Db) :
    (∀ n t, (n, t) ∈ calc_totals year db →
      t = ((db.predictions.filter (fun p =>
              decide (p.person_name = n) && decide (eventYear db p.event_id = some year))).map
            (fun p => pointsCase (resultLookup db p.event_id p.player_name))).sum) ∧
    List.Sorted totalsLE (calc_totals year db) ∧
    (∀ p ∈ db.predictions, eventYear db p.event_id = some year →
      ∃ t, (p.person_name, t) ∈ calc_totals year db) := by
  refine ⟨?_, List.sorted_insertionSort totalsLE _, ?_⟩
  · intro n t h
    rw [(mem_calc_totals h).1]
    exact groupTotal_eq year db n
  · intro p hp hy
    exact ⟨groupTotal year db p.person_name, calc_totals_mem hp hy⟩

/-- Witness for C2 on Scenario A (`aliceDb`): Alice's only prediction is
player X for AO2026, X's recorded round is F, and Alice's total is 60. -/
theorem C2_witness :
    (("Alice", (60 : Int)) ∈ calc_totals 2026 aliceDb) ∧
    (60 : Int) = ((aliceDb.predictions.filter (fun p =>
        decide (p.person_name = "Alice") &&
        decide (eventYear aliceDb p.event_id = some 2026))).map
      (fun p => pointsCase (resultLookup aliceDb p.event_id p.player_name))).sum :=
  ⟨by decide, (C2_totals_spec 2026 aliceDb).1 "Alice" 60 (by decide)⟩

/-- C3 counterexample: in `danaDb`, Dana is in the people store with zero
predictions, yet `calc_totals` (the engine output that feeds
`rank_with_ties`) is empty: it contains no entry for Dana at all, refuting
the claim that she appears with total 0. -/
theorem C3_counterexample :
    danaDb.people = ["Dana"] ∧ danaDb.predictions = [] ∧
    calc_totals 2026 danaDb = [] ∧
    ¬ (("Dana", (0 : Int)) ∈ calc_totals 2026 danaDb) := by
  refine ⟨rfl, rfl, by decide, ?_⟩
  intro h
  rw [show calc_totals 2026 danaDb = [] by decide] at h
  cases h

/-- C3 amended: a person with no prediction for the year never appears in
the scoring output at all (only persons with at least one prediction for a
year event are listed, so such a person also receives no rank). -/
theorem C3_amended_no_entry (year : Int) (db : Db) (n : String)
    (h : ∀ p ∈ db.predictions,
      ¬(p.person_name = n ∧ eventYear db p.event_id = some year)) :
    ∀ t, (n, t) ∉ calc_totals year db := by
  intro t hmem
  obtain ⟨-, hn⟩ := mem_calc_totals hmem
  rcases List.mem_map.mp hn with ⟨row, hrow, hfst⟩
  unfold totalsRows at hrow
  rcases List.mem_map.mp hrow with ⟨p, hpf, hpe⟩
  have hp := List.mem_filter.mp hpf
  refine h p hp.1 ⟨?_, of_decide_eq_true hp.2⟩
  rw [show p.person_name = row.1 from congrArg Prod.fst hpe, hfst]

/-- Witness for the amended C3 on `danaDb`. -/
theorem C3_witness : ("Dana", (0 : Int)) ∉ calc_totals 2026 danaDb :=
  C3_amended_no_entry 2026 danaDb "Dana" (by decide) 0

/-- C8: all points-table entries are non-negative, and inserting a result
row (through the code's upsert) for an (event, player) pair that has no
result yet leaves every person's computed total greater than or equal to
its previous value. -/
theorem C8_result_insert_monotone (year : Int) (db : Db) (e pl r : String)
    (h : resultLookup db e pl = none) :
    (∀ kv ∈ POINTS, 0 ≤ kv.2) ∧
    (∀ n, groupTotal year db n
      ≤ groupTotal year { db with results := upsertResult db.results e pl r } n) := by
  have hnone : db.results.find?
      (fun q => decide (q.event_id = e) && decide (q.player_name = pl)) = none := by
    unfold resultLookup at h
    rcases hf : db.results.find?
      (fun q => decide (q.event_id = e) && decide (q.player_name = pl)) with _ | x
    · exact hf
    · rw [hf] at h
      simp at h
  have hnotany : db.results.any
      (fun q => decide (q.event_id = e) && decide (q.player_name = pl)) = false :=
    List.any_eq_false.mpr (List.find?_eq_none.mp hnone)
  have happ : upsertResult db.results e pl r = db.results ++ [⟨e, pl, r⟩] := by
    unfold upsertResult
    rw [hnotany]
    simp
  refine ⟨by decide, ?_⟩
  intro n
  rw [groupTotal_eq year db n,
    groupTotal_eq year { db with results := upsertResult db.results e pl r } n]
  refine List.sum_le_sum ?_
  intro p _
  show pointsCase (resultLookup db p.event_id p.player_name)
    ≤ pointsCase (resultLookup { db with results := upsertResult db.results e pl r }
        p.event_id p.player_name)
  have hlook : resultLookup { db with results := upsertResult db.results e pl r }
      p.event_id p.player_name
      = ((db.results.find? (fun q => decide (q.event_id = p.event_id) &&
            decide (q.player_name = p.player_name))).or
          (([(⟨e, pl, r⟩ : ResultRow)].find? (fun q => decide (q.event_id = p.event_id) &&
            decide (q.player_name = p.player_name))))).map
        (fun q => q.round_reached) := by
    unfold resultLookup
    rw [show ({ db with results := upsertResult db.results e pl r } : Db).results
        = db.results ++ [⟨e, pl, r⟩] from happ]
    rw [List.find?_append]
  rcases hf : db.results.find? (fun q => decide (q.event_id = p.event_id) &&
      decide (q.player_name = p.player_name)) with _ | x
  · have hbase : resultLookup db p.event_id p.player_name = none := by
      unfold resultLookup
      rw [hf]
      rfl
    rw [hbase, hlook, hf]
    show (0 : Int) ≤ _
    exact pointsCase_nonneg _
  · have hbase : resultLookup db p.event_id p.player_name = some x.round_reached := by
      unfold resultLookup
      rw [hf]
      rfl
    rw [hbase, hlook, hf]
    exact le_refl _

/-- Witness for C8: adding a result for the absent pair (AO2026, Z) to
`aliceDb` does not decrease Alice's total. -/
theorem C8_witness :
    groupTotal 2026 aliceDb "Alice"
      ≤ groupTotal 2026
          { aliceDb with results := upsertResult aliceDb.results "AO2026" "Z" "W" } "Alice" :=
  (C8_result_insert_monotone 2026 aliceDb "AO2026" "Z" "W" (by decide)).2 "Alice"

/-! ## Helper lemmas: result upserts -/

theorem find?_map_update (e pl r : String) (rs : List ResultRow)
    (h : rs.any (fun q => decide (q.event_id = e) && decide (q.player_name = pl)) = true) :
    ((rs.map (fun q => if q.event_id = e ∧ q.player_name = pl
        then { q with round_reached := r } else q)).find?
      (fun q => decide (q.event_id = e) && decide (q.player_name = pl))).map
        (fun q => q.round_reached) = some r := by
  induction rs with
  | nil => simp at h
  | cons q rs ih =>
    by_cases hq : q.event_id = e ∧ q.player_name = pl
    · simp only [List.map_cons, if_pos hq]
      rw [List.find?_cons_of_pos]
      · rfl
      · simp [hq.1, hq.2]
    · simp only [List.map_cons, if_neg hq]
      rw [List.find?_cons_of_neg]
      · apply ih
        simp only [List.any_cons, Bool.or_eq_true] at h
        rcases h with hc | hrest
        · exact absurd (by simpa using hc) hq
        · exact hrest
      · intro hc
        exact hq (by simpa using hc)

theorem upsert_result_lookup (rs : List ResultRow) (e pl r : String) :
    ((upsertResult rs e pl r).find?
      (fun q => decide (q.event_id = e) && decide (q.player_name = pl))).map
        (fun q => q.round_reached) = some r := by
  unfold upsertResult
  by_cases hany : rs.any
      (fun q => decide (q.event_id = e) && decide (q.player_name = pl)) = true
  · rw [if_pos hany]
    exact find?_map_update e pl r rs hany
  · rw [if_neg hany]
    have hfalse : rs.any
        (fun q => decide (q.event_id = e) && decide (q.player_name = pl)) = false := by
      cases h2 : rs.any (fun q => decide (q.event_id = e) && decide (q.player_name = pl))
      · rfl
      · exact absurd h2 hany
    have hfn : rs.find?
        (fun q => decide (q.event_id = e) && decide (q.player_name = pl)) = none :=
      List.find?_eq_none.mpr (List.any_eq_false.mp hfalse)
    rw [List.find?_append, hfn]
    simp

/-! ## Claims about submissions -/

/-- C5 counterexample: with a matching commissioner key, a result submitted
for the seeded event AO2026 with a whitespace-only player name and the
valid round QF is accepted: the stripped (empty) player name is written as
a result row, refuting "the request is rejected and no row is written". -/
theorem C5_counterexample :
    submit_result "k" "AO2026" "   " "QF" "k" aliceDb
      = Except.ok (withResults aliceDb [⟨"AO2026", "X", "F"⟩, ⟨"AO2026", "", "QF"⟩]) := by
  decide

/-- C5 amended: pick submissions reject an empty or whitespace-only person,
event id, or player with no write; result submissions reject a round label
outside the allowed set with no write (`Except.error` models the aborted
transaction, so prior scoring is untouched); but result submissions do not
validate emptiness: with a valid key, round, and event, a whitespace-only
player name is stripped to the empty string and a result row is written
for it. -/
theorem C5_validation (person event_id player round_reached key ck : String) (db : Db) :
    ((pyStrip person = "" ∨ pyStrip event_id = "" ∨ pyStrip player = "") →
      submit_pick person event_id player db = Except.error "Missing fields.") ∧
    (key = ck → pyUpper (pyStrip round_reached) ∉ ALLOWED_ROUNDS →
      submit_result key event_id player round_reached ck db
        = Except.error "Invalid round.") ∧
    (key = ck → pyUpper (pyStrip round_reached) ∈ ALLOWED_ROUNDS →
      (∃ ev ∈ db.events, ev.id = pyStrip event_id) →
      pyStrip player = "" →
      submit_result key event_id player round_reached ck db
        = Except.ok (withResults db
            (upsertResult db.results (pyStrip event_id) ""
              (pyUpper (pyStrip round_reached))))) := by
  refine ⟨?_, ?_, ?_⟩
  · intro h
    simp only [submit_pick]
    rw [if_pos h]
  · intro hk hr
    subst hk
    simp [submit_result, hr]
  · intro hk hr he hpl
    subst hk
    have hall : db.events.all (fun e => decide (e.id ≠ pyStrip event_id)) = false := by
      rcases he with ⟨ev, hmem, hid⟩
      refine List.all_eq_false.mpr ⟨ev, hmem, ?_⟩
      simp [hid]
    simp [submit_result, hr, hall, hpl, withResults]
    exact he

/-- Witness for the amended C5: a whitespace-only pick field is rejected;
round "QR" is rejected with no write; a whitespace-only result player is
accepted and written. -/
theorem C5_witness :
    submit_pick "   " "AO2026" "X" aliceDb = Except.error "Missing fields." ∧
    submit_result "k" "AO2026" "X" "QR" "k" aliceDb = Except.error "Invalid round." ∧
    submit_result "k" "AO2026" "  " "QF" "k" aliceDb
      = Except.ok (withResults aliceDb (upsertResult aliceDb.results "AO2026" "" "QF")) :=
  ⟨(C5_validation "   " "AO2026" "X" "W" "k" "k" aliceDb).1 (Or.inl (by decide)),
   (C5_validation "X" "AO2026" "X" "QR" "k" "k" aliceDb).2.1 rfl (by decide),
   (C5_validation "X" "AO2026" "  " "QF" "k" "k" aliceDb).2.2 rfl (by decide)
     (by decide) (by decide)⟩

/-- C9: `submit_result` normalises the round label by stripping surrounding
whitespace and uppercasing before the membership check, so any case/space
variant of an allowed round is accepted and the stored `round_reached` is
the canonical uppercase label (also the value read back by the scoring
join). -/
theorem C9_round_normalised (key event_id player round_reached ck : String) (db : Db)
    (hk : key = ck)
    (hr : pyUpper (pyStrip round_reached) ∈ ALLOWED_ROUNDS)
    (he : ∃ ev ∈ db.events, ev.id = pyStrip event_id) :
    submit_result key event_id player round_reached ck db
      = Except.ok (withResults db
          (upsertResult db.results (pyStrip event_id) (pyStrip player)
            (pyUpper (pyStrip round_reached)))) ∧
    resultLookup (withResults db
          (upsertResult db.results (pyStrip event_id) (pyStrip player)
            (pyUpper (pyStrip round_reached))))
        (pyStrip event_id) (pyStrip player)
      = some (pyUpper (pyStrip round_reached)) := by
  constructor
  · subst hk
    have hall : db.events.all (fun e => decide (e.id ≠ pyStrip event_id)) = false := by
      rcases he with ⟨ev, hmem, hid⟩
      refine List.all_eq_false.mpr ⟨ev, hmem, ?_⟩
      simp [hid]
    simp [submit_result, hr, hall, withResults]
    exact he
  · exact upsert_result_lookup db.results (pyStrip event_id) (pyStrip player)
      (pyUpper (pyStrip round_reached))

/-- Witness for C9: submitting round " qf " (lowercase, padded) for event
" AO2026 " succeeds and stores the canonical "QF", which the scoring join
reads back. -/
theorem C9_witness :
    submit_result "k" " AO2026 " "X" " qf " "k" aliceDb
      = Except.ok (withResults aliceDb (upsertResult aliceDb.results "AO2026" "X" "QF")) ∧
    resultLookup (withResults aliceDb (upsertResult aliceDb.results "AO2026" "X" "QF"))
        "AO2026" "X"
      = some "QF" := by
  have h := C9_round_normalised "k" " AO2026 " "X" " qf " "k" aliceDb rfl
    (by decide) (by decide)
  rwa [show pyStrip " AO2026 " = "AO2026" from by decide,
    show pyStrip "X" = "X" from by decide,
    show pyUpper (pyStrip " qf ") = "QF" from by decide] at h

/-! ## Claim about database initialization -/

/-- C6 (schema bug): the seed `INSERT INTO events` names a `sort_order`
column that `CREATE TABLE IF NOT EXISTS events` does not declare, so on a
fresh database `init_db` fails with an undefined-column error and seeds
nothing (the transaction rolls back).  On a legacy schema that does have
the column, the seed behaves exactly as the claim states: the 13 catalog
events get ids short-code ++ year and sort orders 1..13 in catalog order,
and re-running the seed is idempotent (upsert, no row removed). -/
theorem C6_seed_schema_bug :
    ("sort_order" ∈ seedInsertColumns ∧ "sort_order" ∉ eventsTableColumns) ∧
    init_db 2026 ⟨none, []⟩
      = Except.error "column sort_order of relation events does not exist" ∧
    EVENTS_ORDERED.map (fun x => x.2.1)
      = ["Australian Open", "Indian Wells", "Miami", "Monte Carlo", "Madrid", "Rome",
         "Roland Garros", "Wimbledon", "Canada", "Cincinnati", "US Open", "Shanghai",
         "Paris"] ∧
    (init_db 2026 ⟨some seedInsertColumns, []⟩).map
        (fun d => (d.events.map (fun e => e.id), d.events.map (fun e => e.sortOrder)))
      = Except.ok (["AO2026", "IW2026", "MIA2026", "MON2026", "MAD2026", "ROM2026",
          "RG2026", "WIM2026", "CAN2026", "CIN2026", "USO2026", "SHA2026", "PAR2026"],
        [1, 2, 3, 4, 5, 6, 7, 8, 9, 10, 11, 12, 13]) ∧
    (init_db 2026 ⟨some seedInsertColumns, []⟩).bind (init_db 2026)
      = init_db 2026 ⟨some seedInsertColumns, []⟩ := by
  decide

/-! ## Helper lemmas: breakdown aggregator -/

theorem pairwise_imp_of_mem {α : Type} {R S : α → α → Prop} {l : List α}
    (h : ∀ a b, a ∈ l → b ∈ l → R a b → S a b) (hp : List.Pairwise R l) :
    List.Pairwise S l := by
  induction l with
  | nil => exact List.Pairwise.nil
  | cons x xs ih =>
    rcases List.pairwise_cons.mp hp with ⟨hx, hxs⟩
    refine List.pairwise_cons.mpr ⟨?_, ?_⟩
    · intro b hb
      exact h x b (List.mem_cons_self _ _) (List.mem_cons_of_mem _ hb) (hx b hb)
    · exact ih (fun a b ha hb => h a b (List.mem_cons_of_mem _ ha) (List.mem_cons_of_mem _ hb))
        hxs

theorem breakdownRows_spec (year : Int) (db : Db) :
    ∀ r ∈ breakdownRows year db,
      (db.events.find? (fun x => decide (x.id = r.event_id))).map (fun e => e.sortOrder)
          = some r.sortOrder ∧
      r.round = (resultLookup db r.event_id r.player).getD "" ∧
      r.pts = pointsCase (resultLookup db r.event_id r.player) := by
  intro r hr
  have hr2 := (List.perm_insertionSort browLE _).mem_iff.mp hr
  rcases List.mem_filterMap.mp hr2 with ⟨p, hp, hF⟩
  rcases hfind : db.events.find? (fun e => decide (e.id = p.event_id)) with _ | e
  · rw [hfind] at hF
    simp at hF
  · rw [hfind] at hF
    by_cases hy : e.year = year
    · simp only [if_pos hy] at hF
      have heid : e.id = p.event_id := by
        have h2 := List.find?_some hfind
        simpa using h2
      injection hF with hh
      subst hh
      refine ⟨?_, ?_, ?_⟩
      · show (db.events.find? (fun x => decide (x.id = e.id))).map (fun x => x.sortOrder)
          = some e.sortOrder
        rw [heid, hfind]
        rfl
      · show (resultLookup db p.event_id p.player_name).getD ""
          = (resultLookup db e.id p.player_name).getD ""
        rw [heid]
      · show pointsCase (resultLookup db p.event_id p.player_name)
          = pointsCase (resultLookup db e.id p.player_name)
        rw [heid]
    · simp only [if_neg hy] at hF
      cases hF

theorem breakdownRows_sortOrder_fn (year : Int) (db : Db) :
    ∀ r1 ∈ breakdownRows year db, ∀ r2 ∈ breakdownRows year db,
      r1.event_id = r2.event_id → r1.sortOrder = r2.sortOrder := by
  intro r1 h1 r2 h2 he
  have s1 := (breakdownRows_spec year db r1 h1).1
  have s2 := (breakdownRows_spec year db r2 h2).1
  rw [he, s2] at s1
  exact (Option.some.inj s1).symm

theorem breakdownRows_pairwise (year : Int) (db : Db) :
    List.Pairwise (fun r1 r2 : BRow =>
        r1.sortOrder ≤ r2.sortOrder ∧
          (r1.event_id = r2.event_id → strLE r1.person r2.person))
      (breakdownRows year db) := by
  have hs : List.Pairwise browLE (breakdownRows year db) :=
    List.sorted_insertionSort browLE _
  refine pairwise_imp_of_mem ?_ hs
  intro a b ha hb hab
  constructor
  · rcases hab with h | ⟨h, _⟩
    · exact le_of_lt h
    · exact le_of_eq h
  · intro he
    have hso := breakdownRows_sortOrder_fn year db a ha b hb he
    rcases hab with h | ⟨_, h⟩
    · exact absurd h (by omega)
    · exact h

theorem breakdownRows_so (year : Int) (db : Db) :
    ∀ r ∈ breakdownRows year db, eventSortOrder db r.event_id = r.sortOrder := by
  intro r hr
  have h := (breakdownRows_spec year db r hr).1
  unfold eventSortOrder
  rw [h]
  rfl

theorem foldl_addRow_spec (so : String → Nat) (P : PRow → Prop) :
    ∀ (l : List BRow) (B : List EventBlock),
      (∀ r ∈ l, so r.event_id = r.sortOrder) →
      List.Pairwise (fun r1 r2 : BRow =>
        r1.sortOrder ≤ r2.sortOrder ∧
          (r1.event_id = r2.event_id → strLE r1.person r2.person)) l →
      (∀ r ∈ l, P (mkPRow r)) →
      (B.map (fun b => b.event_id)).Nodup →
      (∀ b ∈ B, List.Pairwise (fun q1 q2 : PRow => strLE q1.person q2.person) b.rows) →
      (∀ b ∈ B, ∀ q ∈ b.rows, P q) →
      List.Pairwise (fun b1 b2 : EventBlock => so b1.event_id ≤ so b2.event_id) B →
      (∀ b ∈ B, ∀ r ∈ l, b.event_id = r.event_id →
        ∀ q ∈ b.rows, strLE q.person r.person) →
      (∀ b ∈ B, ∀ r ∈ l, so b.event_id ≤ r.sortOrder) →
      ((List.foldl addRow B l).map (fun b => b.event_id)).Nodup ∧
      (∀ b ∈ List.foldl addRow B l,
        List.Pairwise (fun q1 q2 : PRow => strLE q1.person q2.person) b.rows) ∧
      (∀ b ∈ List.foldl addRow B l, ∀ q ∈ b.rows, P q) ∧
      List.Pairwise (fun b1 b2 : EventBlock => so b1.event_id ≤ so b2.event_id)
        (List.foldl addRow B l) := by
  intro l
  induction l with
  | nil =>
    intro B _ _ _ h4 h5 h6 h7 _ _
    exact ⟨h4, h5, h6, h7⟩
  | cons r rest ih =>
    intro B h1 h2 h3 h4 h5 h6 h7 h8 h9
    have h1r : so r.event_id = r.sortOrder := h1 r (List.mem_cons_self _ _)
    have h2head : ∀ r2 ∈ rest, r.sortOrder ≤ r2.sortOrder ∧
        (r.event_id = r2.event_id → strLE r.person r2.person) :=
      (List.pairwise_cons.mp h2).1
    have h2tail := (List.pairwise_cons.mp h2).2
    rw [List.foldl_cons]
    by_cases hex : B.any (fun b => decide (b.event_id = r.event_id)) = true
    · have haddeq : addRow B r = B.map (fun b =>
          if b.event_id = r.event_id then { b with rows := b.rows ++ [mkPRow r] } else b) := by
        unfold addRow
        rw [if_pos hex]
      have hid : ∀ b : EventBlock,
          ((if b.event_id = r.event_id
            then { b with rows := b.rows ++ [mkPRow r] } else b) : EventBlock).event_id
            = b.event_id := by
        intro b
        by_cases hb : b.event_id = r.event_id
        · rw [if_pos hb]
        · rw [if_neg hb]
      rw [haddeq]
      refine ih _ (fun r2 hr2 => h1 r2 (List.mem_cons_of_mem _ hr2)) h2tail
        (fun r2 hr2 => h3 r2 (List.mem_cons_of_mem _ hr2)) ?_ ?_ ?_ ?_ ?_ ?_
      · have hmapeq : (B.map (fun b =>
            if b.event_id = r.event_id
            then { b with rows := b.rows ++ [mkPRow r] } else b)).map (fun b => b.event_id)
              = B.map (fun b => b.event_id) := by
          rw [List.map_map]
          exact List.map_congr_left (fun b _ => hid b)
        rw [hmapeq]
        exact h4
      · intro b1 hb1
        rcases List.mem_map.mp hb1 with ⟨b, hb, hbe⟩
        by_cases hmatch : b.event_id = r.event_id
        · rw [if_pos hmatch] at hbe
          rw [← hbe]
          refine List.pairwise_append.mpr ⟨h5 b hb, by simp, ?_⟩
          intro q hq q2 hq2
          rw [List.mem_singleton.mp hq2]
          show strLE q.person r.person
          exact h8 b hb r (List.mem_cons_self _ _) hmatch q hq
        · rw [if_neg hmatch] at hbe
          rw [← hbe]
          exact h5 b hb
      · intro b1 hb1 q hq
        rcases List.mem_map.mp hb1 with ⟨b, hb, hbe⟩
        by_cases hmatch : b.event_id = r.event_id
        · rw [if_pos hmatch] at hbe
          rw [← hbe] at hq
          rcases List.mem_append.mp hq with hq1 | hq1
          · exact h6 b hb q hq1
          · rw [List.mem_singleton.mp hq1]
            exact h3 r (List.mem_cons_self _ _)
        · rw [if_neg hmatch] at hbe
          rw [← hbe] at hq
          exact h6 b hb q hq
      · rw [List.pairwise_map]
        refine h7.imp ?_
        intro b1 b2 hab
        rw [hid b1, hid b2]
        exact hab
      · intro b1 hb1 r2 hr2 heq q hq
        rcases List.mem_map.mp hb1 with ⟨b, hb, hbe⟩
        rw [← hbe] at heq hq
        by_cases hmatch : b.event_id = r.event_id
        · rw [if_pos hmatch] at hq
          rw [hid b] at heq
          rcases List.mem_append.mp hq with hq1 | hq1
          · exact h8 b hb r2 (List.mem_cons_of_mem _ hr2) heq q hq1
          · rw [List.mem_singleton.mp hq1]
            show strLE r.person r2.person
            exact (h2head r2 hr2).2 (hmatch.symm.trans heq)
        · rw [if_neg hmatch] at hq
          rw [hid b] at heq
          exact h8 b hb r2 (List.mem_cons_of_mem _ hr2) heq q hq
      · intro b1 hb1 r2 hr2
        rcases List.mem_map.mp hb1 with ⟨b, hb, hbe⟩
        rw [← hbe, hid b]
        exact h9 b hb r2 (List.mem_cons_of_mem _ hr2)
    · have haddeq : addRow B r
          = B ++ [⟨r.event_id, r.short_id, r.name, [mkPRow r]⟩] := by
        unfold addRow
        rw [if_neg hex]
      have hnot : r.event_id ∉ B.map (fun b => b.event_id) := by
        intro hc
        rcases List.mem_map.mp hc with ⟨b, hb, hbe⟩
        exact hex (List.any_eq_true.mpr ⟨b, hb, by simp [hbe]⟩)
      rw [haddeq]
      refine ih _ (fun r2 hr2 => h1 r2 (List.mem_cons_of_mem _ hr2)) h2tail
        (fun r2 hr2 => h3 r2 (List.mem_cons_of_mem _ hr2)) ?_ ?_ ?_ ?_ ?_ ?_
      · rw [List.map_append]
        refine List.nodup_append.mpr ⟨h4, by simp, ?_⟩
        intro a ha hb
        rw [List.mem_singleton.mp hb] at ha
        exact hnot ha
      · intro b1 hb1
        rcases List.mem_append.mp hb1 with hb | hb
        · exact h5 b1 hb
        · rw [List.mem_singleton.mp hb]
          simp
      · intro b1 hb1 q hq
        rcases List.mem_append.mp hb1 with hb | hb
        · exact h6 b1 hb q hq
        · rw [List.mem_singleton.mp hb] at hq
          rw [List.mem_singleton.mp hq]
          exact h3 r (List.mem_cons_self _ _)
      · refine List.pairwise_append.mpr ⟨h7, by simp, ?_⟩
        intro b hb b2 hb2
        rw [List.mem_singleton.mp hb2]
        show so b.event_id ≤ so r.event_id
        rw [h1r]
        exact h9 b hb r (List.mem_cons_self _ _)
      · intro b1 hb1 r2 hr2 heq q hq
        rcases List.mem_append.mp hb1 with hb | hb
        · exact h8 b1 hb r2 (List.mem_cons_of_mem _ hr2) heq q hq
        · rw [List.mem_singleton.mp hb] at heq hq
          rw [List.mem_singleton.mp hq]
          show strLE r.person r2.person
          exact (h2head r2 hr2).2 heq
      · intro b1 hb1 r2 hr2
        rcases List.mem_append.mp hb1 with hb | hb
        · exact h9 b1 hb r2 (List.mem_cons_of_mem _ hr2)
        · rw [List.mem_singleton.mp hb]
          show so r.event_id ≤ r2.sortOrder
          rw [h1r]
          exact (h2head r2 hr2).1

/-! ## Claim about the breakdown aggregator -/

/-- C7: the breakdown pipeline (a) gives every fetched row the literal
placeholder "—" and 0 points when no result is recorded, 0 points when the
recorded round is outside `POINTS`, and the recorded round with its points
otherwise; (b) groups rows into one block per event id; (c) preserves
ascending person order inside each block; (d) every displayed row comes
from a fetched row; (e) blocks appear in the events' display `sort_order`,
not event-id order; (f) no filter returns all blocks, and a named event
filter returns exactly that event's blocks. -/
theorem C7_breakdown_spec (year : Int) (db : Db) :
    (∀ r ∈ breakdownRows year db,
      (resultLookup db r.event_id r.player = none →
        (mkPRow r).round = "—" ∧ (mkPRow r).points = 0) ∧
      (∀ rr, resultLookup db r.event_id r.player = some rr →
        POINTS.lookup rr = none → (mkPRow r).points = 0) ∧
      (∀ rr, resultLookup db r.event_id r.player = some rr → rr ≠ "" →
        (mkPRow r).round = rr ∧ (mkPRow r).points = pointsCase (some rr))) ∧
    ((calc_event_breakdown year db).map (fun b => b.event_id)).Nodup ∧
    (∀ b ∈ calc_event_breakdown year db,
      List.Pairwise (fun q1 q2 : PRow => strLE q1.person q2.person) b.rows) ∧
    (∀ b ∈ calc_event_breakdown year db, ∀ q ∈ b.rows,
      ∃ r ∈ breakdownRows year db, q = mkPRow r) ∧
    List.Pairwise (fun b1 b2 : EventBlock =>
        eventSortOrder db b1.event_id ≤ eventSortOrder db b2.event_id)
      (calc_event_breakdown year db) ∧
    (breakdown_page year db none = calc_event_breakdown year db) ∧
    (∀ e, e ≠ "" → breakdown_page year db (some e)
      = (calc_event_breakdown year db).filter (fun b => decide (b.event_id = e))) := by
  have main := foldl_addRow_spec (fun eid => eventSortOrder db eid)
    (fun q => ∃ r ∈ breakdownRows year db, q = mkPRow r)
    (breakdownRows year db) []
    (breakdownRows_so year db) (breakdownRows_pairwise year db)
    (fun r hr => ⟨r, hr, rfl⟩)
    (by simp) (by simp) (by simp) (by simp) (by simp) (by simp)
  refine ⟨?_, main.1, main.2.1, main.2.2.1, main.2.2.2, rfl, ?_⟩
  · intro r hr
    obtain ⟨-, hround, hpts⟩ := breakdownRows_spec year db r hr
    refine ⟨?_, ?_, ?_⟩
    · intro h
      have hre : r.round = "" := by rw [hround, h]; rfl
      constructor
      · show (if r.round = "" then "—" else r.round) = "—"
        rw [if_pos hre]
      · show r.pts = 0
        rw [hpts, h]
        rfl
    · intro rr h hlk
      show r.pts = 0
      rw [hpts, h]
      show (POINTS.lookup rr).getD 0 = 0
      rw [hlk]
      rfl
    · intro rr h hne
      have hre : r.round = rr := by rw [hround, h]; rfl
      constructor
      · show (if r.round = "" then "—" else r.round) = rr
        rw [hre, if_neg hne]
      · show r.pts = pointsCase (some rr)
        rw [hpts, h]
  · intro e he
    simp [breakdown_page, he]

/-- Witness for C7 on `bdDb`: block event ids are distinct, the unfiltered
page returns everything, the RG2026 filter keeps exactly the RG2026 block,
and the Bob/Z row (no result recorded) displays "—" with 0 points. -/
theorem C7_witness :
    ((calc_event_breakdown 2026 bdDb).map (fun b => b.event_id)).Nodup ∧
    breakdown_page 2026 bdDb none = calc_event_breakdown 2026 bdDb ∧
    breakdown_page 2026 bdDb (some "RG2026")
      = (calc_event_breakdown 2026 bdDb).filter (fun b => decide (b.event_id = "RG2026")) ∧
    ((mkPRow ⟨"AO2026", "AO", "Australian Open", "Bob", "Z", "", 0, 1⟩).round = "—" ∧
      (mkPRow ⟨"AO2026", "AO", "Australian Open", "Bob", "Z", "", 0, 1⟩).points = 0) :=
  ⟨(C7_breakdown_spec 2026 bdDb).2.1,
   (C7_breakdown_spec 2026 bdDb).2.2.2.2.2.1,
   (C7_breakdown_spec 2026 bdDb).2.2.2.2.2.2 "RG2026" (by decide),
   ((C7_breakdown_spec 2026 bdDb).1
     ⟨"AO2026", "AO", "Australian Open", "Bob", "Z", "", 0, 1⟩ (by decide)).1 (by decide)⟩

end TennisLeague
